import Mathlib

/-!
Shallow embedding of the `@ekaone/mask-phone` library (src/src/index.ts and
its types module). JavaScript strings are modelled as `List Char`; JavaScript
numbers that reach arithmetic (`showFirst`, `showLast`, range bounds, the
`length - showLast` subtraction) are modelled as `Int`; optional fields and
optional parameters are `Option`s. `??` is `Option.getD`, and the truthiness
tests in the source (`!phoneStr`, `!options?.customMask`, `!options?.visibleRanges`)
are modelled by emptiness / `Option.isNone` checks exactly where the source
applies them (note an *empty array* passed as `visibleRanges` is truthy in JS,
so it still blocks the short-input bypass).
-/

namespace MaskPhone

/-- JavaScript values that can be passed as the `phone` argument:
strings, numbers, `null`, `undefined`, an object with a `phone` property
(carrying any further value), or an object without one. -/
inductive PhoneInput where
  | str (s : List Char)
  | num (n : Int)
  | nullV
  | undefinedV
  | obj (phone : PhoneInput)
  | objNoPhone
deriving Repr

/-- JavaScript `String(v)` coercion for the modelled values. -/
def jsString : PhoneInput → List Char
  | .str s => s
  | .num n => (toString n).data
  | .nullV => "null".data
  | .undefinedV => "undefined".data
  | .obj _ => "[object Object]".data
  | .objNoPhone => "[object Object]".data

/-- JavaScript `String.prototype.trim`: drop whitespace from both ends. -/
def jsTrim (s : List Char) : List Char :=
  ((s.dropWhile Char.isWhitespace).reverse.dropWhile Char.isWhitespace).reverse

/-- `MaskOptions` from the types module: every field optional. The
`customMask` callback receives (char, index, fullString) and returns a string. -/
structure MaskOptions where
  maskChar : Option (List Char) := none
  showFirst : Option Int := none
  showLast : Option Int := none
  showStart : Option Int := none
  showEnd : Option Int := none
  visibleRanges : Option (List (Int × Int)) := none
  preserveFormat : Option Bool := none
  customMask : Option (Char → Nat → List Char → List Char) := none

/-- `NormalizedOptions` from the types module. -/
structure NormalizedOptions where
  maskChar : List Char
  showFirst : Int
  showLast : Int
  visibleRanges : Option (List (Int × Int)) := none
  preserveFormat : Bool
  customMask : Option (Char → Nat → List Char → List Char) := none

/-- The `DEFAULT_OPTIONS` constant from the types module. -/
structure DefaultOptions where
  maskChar : List Char
  showLast : Int
  preserveFormat : Bool

def DEFAULT_OPTIONS : DefaultOptions :=
  { maskChar := ['*'], showLast := 4, preserveFormat := false }

/-- `normalizePhone` (src/src/index.ts lines 8-20): `null`/`undefined` become
`""`; an object's `phone` property replaces the value; everything else is
coerced with `String` and trimmed. -/
def normalizePhone : PhoneInput → List Char
  | .nullV => []
  | .undefinedV => []
  | .obj p => jsTrim (jsString p)
  | .objNoPhone => jsTrim (jsString .objNoPhone)
  | .str s => jsTrim s
  | .num n => jsTrim (jsString (.num n))

/-- `stripFormatting` (lines 26-29): `phone.replace(/[^\d+]/g, "")` keeps
only ASCII decimal digits and `+`. -/
def stripFormatting (phone : List Char) : List Char :=
  phone.filter (fun c => c.isDigit || c == '+')

/-- `normalizeOptions` (lines 35-58); `a ?? b` is `Option.getD`. -/
def normalizeOptions : Option MaskOptions → NormalizedOptions
  | none =>
    { maskChar := DEFAULT_OPTIONS.maskChar
      showFirst := 0
      showLast := DEFAULT_OPTIONS.showLast
      preserveFormat := DEFAULT_OPTIONS.preserveFormat }
  | some options =>
    { maskChar := options.maskChar.getD DEFAULT_OPTIONS.maskChar
      showFirst := options.showFirst.getD (options.showStart.getD 0)
      showLast := options.showLast.getD (options.showEnd.getD DEFAULT_OPTIONS.showLast)
      visibleRanges := options.visibleRanges
      preserveFormat := options.preserveFormat.getD DEFAULT_OPTIONS.preserveFormat
      customMask := options.customMask }

/-- `isCharVisible` (lines 63-86). `options.visibleRanges &&
options.visibleRanges.length > 0` is true exactly when the field is present
and non-empty, i.e. when `getD []` is non-empty. -/
def isCharVisible (index length : Nat) (options : NormalizedOptions) : Bool :=
  if (options.visibleRanges.getD []).length > 0 then
    (options.visibleRanges.getD []).any
      (fun r => decide (r.1 ≤ (index : Int)) && decide ((index : Int) ≤ r.2))
  else if 0 < options.showFirst ∧ (index : Int) < options.showFirst then
    true
  else if 0 < options.showLast ∧ (length : Int) - options.showLast ≤ (index : Int) then
    true
  else
    false

/-- `isFormattingChar` (lines 91-94): the regex `/[\s\-().\+]/`. -/
def isFormattingChar (c : Char) : Bool :=
  c.isWhitespace || c == '-' || c == '(' || c == ')' || c == '.' || c == '+'

/-- Recursive core of `maskWithFormat` (lines 99-129): walks the characters,
carrying the character index and the running digit counter. The source
initialises `digitIndex` to -1 and increments before each visibility test;
testing the current value and passing the incremented one is the same thing. -/
def maskWithFormatGo (options : NormalizedOptions) (phone : List Char)
    (totalDigits : Nat) : List Char → Nat → Nat → List Char
  | [], _, _ => []
  | c :: rest, charIndex, digitIndex =>
    match options.customMask with
    | some f =>
      f c charIndex phone ++ maskWithFormatGo options phone totalDigits rest (charIndex + 1) digitIndex
    | none =>
      if isFormattingChar c then
        c :: maskWithFormatGo options phone totalDigits rest (charIndex + 1) digitIndex
      else if isCharVisible digitIndex totalDigits options then
        c :: maskWithFormatGo options phone totalDigits rest (charIndex + 1) (digitIndex + 1)
      else
        options.maskChar ++ maskWithFormatGo options phone totalDigits rest (charIndex + 1) (digitIndex + 1)

/-- `maskWithFormat` (lines 99-129): `totalDigits` comes from
`phone.replace(/\D/g, "")`, i.e. the decimal digits only. -/
def maskWithFormat (phone : List Char) (options : NormalizedOptions) : List Char :=
  maskWithFormatGo options phone (phone.filter Char.isDigit).length phone 0 0

/-- `maskWithoutFormat` (lines 134-161): strip, then map over the stripped
characters with their indices. -/
def maskWithoutFormat (phone : List Char) (options : NormalizedOptions) : List Char :=
  let stripped := stripFormatting phone
  let length := stripped.length
  List.flatten (stripped.enum.map (fun p =>
    match options.customMask with
    | some f => f p.2 p.1 stripped
    | none =>
      if p.2 == '+' then [p.2]
      else if isCharVisible p.1 length options then [p.2]
      else options.maskChar))

/-- `maskPhone` (lines 183-211). The bypass condition tests the *raw* options
(`!options?.customMask && !options?.visibleRanges`): any supplied array, even
an empty one, is truthy and disables the bypass. -/
def maskPhone (phone : PhoneInput) (options : Option MaskOptions) : List Char :=
  let phoneStr := normalizePhone phone
  if phoneStr = [] then [] else
  let normalizedOpts := normalizeOptions options
  let stripped := stripFormatting phoneStr
  let totalVisible := normalizedOpts.showFirst + normalizedOpts.showLast
  if (options.bind MaskOptions.customMask).isNone ∧
      (options.bind MaskOptions.visibleRanges).isNone ∧
      (stripped.length : Int) ≤ totalVisible then
    phoneStr
  else if normalizedOpts.preserveFormat then
    maskWithFormat phoneStr normalizedOpts
  else
    maskWithoutFormat phoneStr normalizedOpts

/-! ### Helper lemmas -/

/-- Each character of `phone` paired with the digit-position counter the
format-preserving walk assigns to it (the counter advances exactly on
non-formatting characters). -/
def annotate (d0 : Nat) : List Char → List (Char × Nat)
  | [] => []
  | c :: rest => (c, d0) :: annotate (if isFormattingChar c then d0 else d0 + 1) rest

theorem annotate_length (l : List Char) : ∀ d0, (annotate d0 l).length = l.length := by
  induction l with
  | nil => intro d0; rfl
  | cons c rest ih => intro d0; simp [annotate, ih]

theorem annotate_getElem? (l : List Char) : ∀ d0 i,
    (annotate d0 l)[i]? =
      l[i]?.map (fun c =>
        (c, d0 + ((l.take i).filter (fun x => !isFormattingChar x)).length)) := by
  induction l with
  | nil => intro d0 i; simp [annotate]
  | cons c rest ih =>
    intro d0 i
    cases i with
    | zero => simp [annotate]
    | succ j =>
      simp only [annotate, List.getElem?_cons_succ, List.take_succ_cons,
        List.filter_cons, ih]
      by_cases hc : isFormattingChar c
      · simp [hc]
      · simp only [hc, Bool.not_false, if_neg]
        cases rest[j]? <;> simp
        omega

theorem flatten_map_singleton {α β : Type} (g : α → β) (l : List α) :
    (l.map (fun a => [g a])).flatten = l.map g := by
  induction l with
  | nil => rfl
  | cons a rest ih => simp [ih]

theorem normalizeOptions_customMask (opts : Option MaskOptions) :
    (normalizeOptions opts).customMask = opts.bind MaskOptions.customMask := by
  cases opts <;> rfl

theorem maskWithFormatGo_eq (o : NormalizedOptions) (hcm : o.customMask = none)
    (phone : List Char) (td : Nat) : ∀ (rest : List Char) (ci d0 : Nat),
    maskWithFormatGo o phone td rest ci d0 =
      ((annotate d0 rest).map (fun p =>
        if isFormattingChar p.1 then [p.1]
        else if isCharVisible p.2 td o then [p.1]
        else o.maskChar)).flatten := by
  intro rest
  induction rest with
  | nil => intro ci d0; rfl
  | cons c tail ih =>
    intro ci d0
    simp only [maskWithFormatGo, hcm, annotate, List.map_cons, List.flatten_cons]
    by_cases hc : isFormattingChar c
    · simp [hc, ih]
    · by_cases hv : isCharVisible d0 td o
      · simp [hc, hv, ih]
      · simp [hc, hv, ih]

theorem maskWithFormat_eq_map (phone : List Char) (o : NormalizedOptions) (m : Char)
    (hcm : o.customMask = none) (hmask : o.maskChar = [m]) :
    maskWithFormat phone o =
      (annotate 0 phone).map (fun p =>
        if isFormattingChar p.1 then p.1
        else if isCharVisible p.2 (phone.filter Char.isDigit).length o then p.1
        else m) := by
  rw [maskWithFormat, maskWithFormatGo_eq o hcm]
  rw [show ((fun (p : Char × Nat) =>
      if isFormattingChar p.1 then [p.1]
      else if isCharVisible p.2 (phone.filter Char.isDigit).length o then [p.1]
      else o.maskChar)) = (fun p =>
        [if isFormattingChar p.1 then p.1
         else if isCharVisible p.2 (phone.filter Char.isDigit).length o then p.1
         else m]) from ?_]
  · exact flatten_map_singleton _ _
  · funext p
    by_cases h1 : isFormattingChar p.1
    · simp [h1]
    · by_cases h2 : isCharVisible p.2 (phone.filter Char.isDigit).length o
      · simp [h1, h2]
      · simp [h1, h2, hmask]

theorem maskWithFormat_length (phone : List Char) (o : NormalizedOptions) (m : Char)
    (hcm : o.customMask = none) (hmask : o.maskChar = [m]) :
    (maskWithFormat phone o).length = phone.length := by
  rw [maskWithFormat_eq_map phone o m hcm hmask, List.length_map, annotate_length]

theorem maskWithFormat_getElem? (phone : List Char) (o : NormalizedOptions) (m : Char)
    (hcm : o.customMask = none) (hmask : o.maskChar = [m]) (i : Nat) :
    (maskWithFormat phone o)[i]? =
      phone[i]?.map (fun c =>
        if isFormattingChar c then c
        else if isCharVisible ((phone.take i).filter (fun x => !isFormattingChar x)).length
            (phone.filter Char.isDigit).length o then c
        else m) := by
  rw [maskWithFormat_eq_map phone o m hcm hmask, List.getElem?_map, annotate_getElem?]
  cases phone[i]? <;> simp

theorem maskWithoutFormat_eq_map (phone : List Char) (o : NormalizedOptions) (m : Char)
    (hcm : o.customMask = none) (hmask : o.maskChar = [m]) :
    maskWithoutFormat phone o =
      (stripFormatting phone).enum.map (fun p =>
        if p.2 == '+' then p.2
        else if isCharVisible p.1 (stripFormatting phone).length o then p.2
        else m) := by
  rw [maskWithoutFormat]
  simp only [hcm]
  rw [show ((fun (p : Nat × Char) =>
      if p.2 == '+' then [p.2]
      else if isCharVisible p.1 (stripFormatting phone).length o then [p.2]
      else o.maskChar)) = (fun p =>
        [if p.2 == '+' then p.2
         else if isCharVisible p.1 (stripFormatting phone).length o then p.2
         else m]) from ?_]
  · exact flatten_map_singleton _ _
  · funext p
    by_cases h1 : p.2 == '+'
    · simp [h1]
    · by_cases h2 : isCharVisible p.1 (stripFormatting phone).length o
      · simp [h1, h2]
      · simp [h1, h2, hmask]

theorem maskWithoutFormat_length (phone : List Char) (o : NormalizedOptions) (m : Char)
    (hcm : o.customMask = none) (hmask : o.maskChar = [m]) :
    (maskWithoutFormat phone o).length = (stripFormatting phone).length := by
  rw [maskWithoutFormat_eq_map phone o m hcm hmask, List.length_map, List.enum_length]

theorem maskWithoutFormat_getElem? (phone : List Char) (o : NormalizedOptions) (m : Char)
    (hcm : o.customMask = none) (hmask : o.maskChar = [m]) (i : Nat) :
    (maskWithoutFormat phone o)[i]? =
      (stripFormatting phone)[i]?.map (fun c =>
        if c == '+' then c
        else if isCharVisible i (stripFormatting phone).length o then c
        else m) := by
  rw [maskWithoutFormat_eq_map phone o m hcm hmask, List.getElem?_map, List.getElem?_enum]
  cases (stripFormatting phone)[i]? <;> simp

theorem maskWithFormatGo_customMask (o1 o2 : NormalizedOptions)
    (f : Char → Nat → List Char → List Char)
    (h1 : o1.customMask = some f) (h2 : o2.customMask = some f)
    (phone : List Char) (td1 td2 : Nat) : ∀ (rest : List Char) (ci d1 d2 : Nat),
    maskWithFormatGo o1 phone td1 rest ci d1 = maskWithFormatGo o2 phone td2 rest ci d2 := by
  intro rest
  induction rest with
  | nil => intro ci d1 d2; rfl
  | cons c tail ih =>
    intro ci d1 d2
    simp only [maskWithFormatGo, h1, h2]
    rw [ih]

theorem maskWithoutFormat_customMask (o1 o2 : NormalizedOptions)
    (f : Char → Nat → List Char → List Char)
    (h1 : o1.customMask = some f) (h2 : o2.customMask = some f) (phone : List Char) :
    maskWithoutFormat phone o1 = maskWithoutFormat phone o2 := by
  simp only [maskWithoutFormat, h1, h2]

/-! ### Claims -/

/-- C1: for every input and every options value supplying neither
`customMask` nor `visibleRanges`, if the stripped normalized input is no
longer than the resolved `showFirst + showLast`, `maskPhone` returns the
normalized input unchanged. -/
theorem bypass_short_input_id (phone : PhoneInput) (opts : Option MaskOptions)
    (hcm : opts.bind MaskOptions.customMask = none)
    (hvr : opts.bind MaskOptions.visibleRanges = none)
    (hlen : ((stripFormatting (normalizePhone phone)).length : Int) ≤
      (normalizeOptions opts).showFirst + (normalizeOptions opts).showLast) :
    maskPhone phone opts = normalizePhone phone := by
  unfold maskPhone
  by_cases h : normalizePhone phone = []
  · simp [h]
  · simp only [h, if_neg, if_false]
    rw [if_pos ⟨by simp [hcm], by simp [hvr], hlen⟩]

theorem bypass_short_input_id_witness :
    maskPhone (.str ['1', '2']) none = normalizePhone (.str ['1', '2']) :=
  bypass_short_input_id (.str ['1', '2']) none rfl rfl (by decide)

/-- C2: the visibility predicate. With a non-empty `visibleRanges` the digit
is visible iff its index lies in some inclusive range (union semantics,
`showFirst`/`showLast` ignored); otherwise it is visible iff
(`showFirst > 0` and `index < showFirst`) or (`showLast > 0` and
`index ≥ length - showLast`). -/
theorem isCharVisible_spec (i n : Nat) (o : NormalizedOptions) :
    (∀ rs, o.visibleRanges = some rs → rs ≠ [] →
      (isCharVisible i n o = true ↔ ∃ r ∈ rs, r.1 ≤ (i : Int) ∧ (i : Int) ≤ r.2)) ∧
    (o.visibleRanges.getD [] = [] →
      (isCharVisible i n o = true ↔
        (0 < o.showFirst ∧ (i : Int) < o.showFirst) ∨
        (0 < o.showLast ∧ (n : Int) - o.showLast ≤ (i : Int)))) := by
  constructor
  · intro rs hrs hne
    rw [isCharVisible]
    simp only [hrs, Option.getD_some]
    rw [if_pos (by simpa [List.length_pos] using hne)]
    simp [List.any_eq_true]
  · intro hempty
    rw [isCharVisible, hempty]
    simp only [List.length_nil, gt_iff_lt, lt_self_iff_false, if_false]
    by_cases h1 : 0 < o.showFirst ∧ (i : Int) < o.showFirst
    · simp [h1]
    · by_cases h2 : 0 < o.showLast ∧ (n : Int) - o.showLast ≤ (i : Int)
      · simp [h1, h2]
      · simp [h1, h2]

theorem isCharVisible_spec_witness :
    isCharVisible 1 5
      { maskChar := ['*'], showFirst := 0, showLast := 0,
        visibleRanges := some [((0 : Int), (2 : Int))], preserveFormat := false } = true :=
  ((isCharVisible_spec 1 5 _).1 [((0 : Int), (2 : Int))] rfl (by decide)).mpr
    ⟨((0 : Int), (2 : Int)), by decide, by decide, by decide⟩

/-- C6: option resolution: `maskChar` defaults to `*`; `showFirst` takes
`showFirst`, else `showStart`, else 0; `showLast` takes `showLast`, else
`showEnd`, else 4. -/
theorem normalizeOptions_resolution (o : MaskOptions) :
    ((∀ c, o.maskChar = some c → (normalizeOptions (some o)).maskChar = c) ∧
      (o.maskChar = none → (normalizeOptions (some o)).maskChar = ['*'])) ∧
    ((∀ a, o.showFirst = some a → (normalizeOptions (some o)).showFirst = a) ∧
      (∀ b, o.showFirst = none → o.showStart = some b →
        (normalizeOptions (some o)).showFirst = b) ∧
      (o.showFirst = none → o.showStart = none → (normalizeOptions (some o)).showFirst = 0)) ∧
    ((∀ a, o.showLast = some a → (normalizeOptions (some o)).showLast = a) ∧
      (∀ b, o.showLast = none → o.showEnd = some b →
        (normalizeOptions (some o)).showLast = b) ∧
      (o.showLast = none → o.showEnd = none → (normalizeOptions (some o)).showLast = 4)) := by
  refine ⟨⟨?_, ?_⟩, ⟨?_, ?_, ?_⟩, ⟨?_, ?_, ?_⟩⟩ <;>
    intros <;> simp_all [normalizeOptions, DEFAULT_OPTIONS]

theorem normalizeOptions_resolution_witness :
    (normalizeOptions (some { showFirst := some 7, showStart := some 9, showEnd := some 2, maskChar := some ['#'] })).showFirst = 7 ∧
    (normalizeOptions (some { showFirst := some 7, showStart := some 9, showEnd := some 2, maskChar := some ['#'] })).showLast = 2 ∧
    (normalizeOptions (some { showFirst := some 7, showStart := some 9, showEnd := some 2, maskChar := some ['#'] })).maskChar = ['#'] :=
  ⟨(normalizeOptions_resolution _).2.1.1 7 rfl,
    (normalizeOptions_resolution _).2.2.2.1 2 rfl rfl,
    (normalizeOptions_resolution _).1.1 ['#'] rfl⟩

/-- C7: a negative `showFirst` (resp. `showLast`) gives the same visibility
as the value 0: it never satisfies the `> 0` guard. -/
theorem isCharVisible_negative_noop (i n : Nat) (o : NormalizedOptions) (s : Int)
    (hs : s < 0) :
    isCharVisible i n { o with showFirst := s } = isCharVisible i n { o with showFirst := 0 } ∧
    isCharVisible i n { o with showLast := s } = isCharVisible i n { o with showLast := 0 } := by
  have hns : ¬ (0 : Int) < s := by omega
  constructor <;> simp [isCharVisible, hns]

theorem isCharVisible_negative_noop_witness :
    isCharVisible 0 10
        { maskChar := ['*'], showFirst := -1, showLast := 4, preserveFormat := false } =
      isCharVisible 0 10
        { maskChar := ['*'], showFirst := 0, showLast := 4, preserveFormat := false } :=
  (isCharVisible_negative_noop 0 10
    { maskChar := ['*'], showFirst := 37, showLast := 4, preserveFormat := false }
    (-1) (by decide)).1

/-- C8: for every options value, `maskPhone` returns the empty string on
`null`, `undefined`, the empty string, and whitespace-only strings. -/
theorem maskPhone_empty_inputs (opts : Option MaskOptions) (s : List Char)
    (hs : ∀ c ∈ s, c.isWhitespace) :
    maskPhone .nullV opts = [] ∧ maskPhone .undefinedV opts = [] ∧
    maskPhone (.str []) opts = [] ∧ maskPhone (.str s) opts = [] := by
  have htrim : jsTrim s = [] := by
    rw [jsTrim, List.dropWhile_eq_nil_iff.mpr hs]
    rfl
  refine ⟨rfl, rfl, ?_, ?_⟩
  · simp [maskPhone, normalizePhone, jsTrim]
  · simp [maskPhone, normalizePhone, htrim]

theorem maskPhone_empty_inputs_witness :
    maskPhone (.str [' ', '\t'])
      (some { visibleRanges := some [((0 : Int), (5 : Int))] }) = [] :=
  (maskPhone_empty_inputs (some { visibleRanges := some [((0 : Int), (5 : Int))] })
    [' ', '\t'] (by decide)).2.2.2

/-- C10: an object whose `phone` property is `null` (resp. `undefined`)
normalizes to the non-empty string "null" (resp. "undefined") — the
null-to-empty rule applies only to the outer value — and `maskPhone`
returns that string (the defaults' bypass applies as it has no digits). -/
theorem maskPhone_object_null_phone :
    maskPhone (.obj .nullV) none = "null".data ∧
    maskPhone (.obj .undefinedV) none = "undefined".data ∧
    normalizePhone (.obj .nullV) = "null".data ∧
    normalizePhone (.obj .undefinedV) = "undefined".data := by
  decide

/-- C3 counterexample: the short-input bypass and input trimming both break
the length law as stated. `maskPhone " 1-2"` in format mode returns the
trimmed "1-2" (length 3 ≠ input length 4), and `maskPhone "1-2"` with the
defaults takes the bypass, returning "1-2" (length 3 ≠ stripped length 2). -/
theorem maskPhone_length_cex :
    (maskPhone (.str " 1-2".data) (some { preserveFormat := some true })).length ≠
      (" 1-2".data).length ∧
    (maskPhone (.str "1-2".data) none).length ≠ (stripFormatting "1-2".data).length := by
  decide

/-- C3 amended: without `customMask` and with a single-character `maskChar`,
in format mode the output length equals the *normalized* input's length, and
in digit-only mode — provided the short-input bypass is not taken — it
equals the length of `stripFormatting` of the normalized input. -/
theorem maskPhone_length (phone : PhoneInput) (opts : Option MaskOptions) (m : Char)
    (hcm : opts.bind MaskOptions.customMask = none)
    (hmask : (normalizeOptions opts).maskChar = [m]) :
    ((normalizeOptions opts).preserveFormat = true →
      (maskPhone phone opts).length = (normalizePhone phone).length) ∧
    ((normalizeOptions opts).preserveFormat = false →
      ((opts.bind MaskOptions.visibleRanges).isSome ∨
        (normalizeOptions opts).showFirst + (normalizeOptions opts).showLast <
          ((stripFormatting (normalizePhone phone)).length : Int)) →
      (maskPhone phone opts).length = (stripFormatting (normalizePhone phone)).length) := by
  have hcm' : (normalizeOptions opts).customMask = none := by
    rw [normalizeOptions_customMask, hcm]
  constructor
  · intro hpf
    unfold maskPhone
    by_cases h : normalizePhone phone = []
    · simp [h]
    · simp only [h, if_neg, if_false]
      by_cases hb : (opts.bind MaskOptions.customMask).isNone ∧
          (opts.bind MaskOptions.visibleRanges).isNone ∧
          ((stripFormatting (normalizePhone phone)).length : Int) ≤
            (normalizeOptions opts).showFirst + (normalizeOptions opts).showLast
      · rw [if_pos hb]
      · rw [if_neg hb, if_pos hpf, maskWithFormat_length _ _ m hcm' hmask]
  · intro hpf hbp
    unfold maskPhone
    by_cases h : normalizePhone phone = []
    · simp [h, stripFormatting]
    · simp only [h, if_neg, if_false]
      have hb : ¬ ((opts.bind MaskOptions.customMask).isNone ∧
          (opts.bind MaskOptions.visibleRanges).isNone ∧
          ((stripFormatting (normalizePhone phone)).length : Int) ≤
            (normalizeOptions opts).showFirst + (normalizeOptions opts).showLast) := by
        rcases hbp with hvr | hlt
        · intro hb
          rw [Option.isSome_iff_ne_none] at hvr
          exact hvr (Option.isNone_iff_eq_none.mp hb.2.1)
        · intro hb
          omega
      rw [if_neg hb, if_neg (by simp [hpf]), maskWithoutFormat_length _ _ m hcm' hmask]

theorem maskPhone_length_witness :
    (maskPhone (.str "1234567890".data) none).length =
      (stripFormatting (normalizePhone (.str "1234567890".data))).length :=
  (maskPhone_length (.str "1234567890".data) none '*' rfl rfl).2 rfl (Or.inr (by decide))

/-- C4: in digit-only mode without `customMask`, each `+` of the stripped
string passes through unmasked; every other character is tested against the
predicate with its index *within the stripped string* and with the stripped
string's total length (both counting `+` characters). -/
theorem maskWithoutFormat_plus_spec (phone : List Char) (o : NormalizedOptions) (m : Char)
    (hcm : o.customMask = none) (hmask : o.maskChar = [m]) (i : Nat) (c : Char)
    (hc : (stripFormatting phone)[i]? = some c) :
    (maskWithoutFormat phone o)[i]? =
      some (if c = '+' then c
        else if isCharVisible i (stripFormatting phone).length o then c
        else m) := by
  rw [maskWithoutFormat_getElem? phone o m hcm hmask i, hc]
  simp only [Option.map_some']
  by_cases h : c = '+'
  · simp [h]
  · simp [h]

theorem maskWithoutFormat_plus_spec_witness :
    (maskWithoutFormat "+12345".data (normalizeOptions none))[0]? = some '+' :=
  (maskWithoutFormat_plus_spec "+12345".data (normalizeOptions none) '*' rfl rfl 0 '+'
    rfl).trans (by decide)

/-- C5: when `customMask` is supplied, the output depends only on the input,
the callback, and `preserveFormat`: two options values with the same callback
and the same resolved `preserveFormat` give the same output, and the
short-input bypass is never taken (the result is always the dispatched
strategy's output on non-empty input). -/
theorem customMask_determines_output (phone : PhoneInput)
    (f : Char → Nat → List Char → List Char) (o1 o2 : MaskOptions)
    (h1 : o1.customMask = some f) (h2 : o2.customMask = some f)
    (hp : (normalizeOptions (some o1)).preserveFormat =
      (normalizeOptions (some o2)).preserveFormat) :
    maskPhone phone (some o1) = maskPhone phone (some o2) ∧
    (normalizePhone phone ≠ [] →
      maskPhone phone (some o1) =
        (if (normalizeOptions (some o1)).preserveFormat then
          maskWithFormat (normalizePhone phone) (normalizeOptions (some o1))
        else maskWithoutFormat (normalizePhone phone) (normalizeOptions (some o1)))) := by
  have hn1 : (normalizeOptions (some o1)).customMask = some f := by
    rw [normalizeOptions_customMask]; exact h1
  have hn2 : (normalizeOptions (some o2)).customMask = some f := by
    rw [normalizeOptions_customMask]; exact h2
  have hby1 : ¬ ((Option.bind (some o1) MaskOptions.customMask).isNone ∧
      (Option.bind (some o1) MaskOptions.visibleRanges).isNone ∧
      ((stripFormatting (normalizePhone phone)).length : Int) ≤
        (normalizeOptions (some o1)).showFirst + (normalizeOptions (some o1)).showLast) := by
    intro hb
    simp [Option.bind, h1] at hb
  have hby2 : ¬ ((Option.bind (some o2) MaskOptions.customMask).isNone ∧
      (Option.bind (some o2) MaskOptions.visibleRanges).isNone ∧
      ((stripFormatting (normalizePhone phone)).length : Int) ≤
        (normalizeOptions (some o2)).showFirst + (normalizeOptions (some o2)).showLast) := by
    intro hb
    simp [Option.bind, h2] at hb
  constructor
  · unfold maskPhone
    by_cases h : normalizePhone phone = []
    · simp [h]
    · simp only [h, if_neg, if_false]
      rw [if_neg hby1, if_neg hby2]
      by_cases hpf : (normalizeOptions (some o1)).preserveFormat
      · rw [if_pos hpf, if_pos (hp ▸ hpf)]
        exact maskWithFormatGo_customMask _ _ f hn1 hn2 _ _ _ _ _ _ _
      · rw [if_neg hpf, if_neg (hp ▸ hpf)]
        exact maskWithoutFormat_customMask _ _ f hn1 hn2 _
  · intro h
    unfold maskPhone
    simp only [h, if_neg, if_false]
    rw [if_neg hby1]

theorem customMask_determines_output_witness :
    maskPhone (.str ['1', '2', '3'])
        (some { customMask := some (fun _ _ _ => ['#']), maskChar := some ['X'] }) =
      maskPhone (.str ['1', '2', '3'])
        (some { customMask := some (fun _ _ _ => ['#']), showFirst := some 2 }) :=
  (customMask_determines_output (.str ['1', '2', '3']) (fun _ _ _ => ['#'])
    { customMask := some (fun _ _ _ => ['#']), maskChar := some ['X'] }
    { customMask := some (fun _ _ _ => ['#']), showFirst := some 2 }
    rfl rfl rfl).1

/-- C9: in format-preserving mode without `customMask`, a character that is
not a formatting character — a letter as much as a digit — occupies a slot of
the running digit counter (its position is the number of non-formatting
characters before it) and is itself masked or kept by the predicate, while
the total count passed to the predicate counts only decimal digits. -/
theorem maskWithFormat_nondigit_spec (phone : List Char) (o : NormalizedOptions) (m : Char)
    (hcm : o.customMask = none) (hmask : o.maskChar = [m]) (i : Nat) (c : Char)
    (hc : phone[i]? = some c) (hnf : isFormattingChar c = false) :
    (maskWithFormat phone o)[i]? =
      some (if isCharVisible ((phone.take i).filter (fun x => !isFormattingChar x)).length
          (phone.filter Char.isDigit).length o then c
        else m) := by
  rw [maskWithFormat_getElem? phone o m hcm hmask i, hc]
  simp only [Option.map_some', hnf, Bool.false_eq_true, if_false]

theorem maskWithFormat_nondigit_spec_witness :
    (maskWithFormat "a123".data
      { maskChar := ['*'], showFirst := 0, showLast := 1, preserveFormat := true })[0]? =
      some '*' :=
  (maskWithFormat_nondigit_spec "a123".data
    { maskChar := ['*'], showFirst := 0, showLast := 1, preserveFormat := true }
    '*' rfl rfl 0 'a' rfl rfl).trans (by decide)

end MaskPhone
